import Mathlib

/-!
Shallow embedding of the llm-debugger client's data model and payload
transforms (src/client/src/lib/api.ts, src/client/src/lib/mockData.ts,
src/client/src/App.tsx / the App component with analysis support), together
with theorems settling the specification claims about them.

Embedding conventions:
* TypeScript optional / possibly-`undefined` fields become `Option`;
  a JSON key that is absent or `undefined` is `none`.
* JavaScript object spread `{...a, ...b}` over such records takes `b`'s
  field when it is present (`some`) and `a`'s otherwise for optional
  fields, and `b`'s field for required fields.
* JavaScript string truthiness: `""` is falsy, every other string truthy;
  number truthiness: `0` is falsy.  The helpers `jsOrString` / `jsOrInt`
  model `a || d`.
* `parseInt(s, 10)` is modelled by `jsParseInt`: skip leading whitespace,
  optional sign, then the maximal ASCII-digit prefix; `none` models `NaN`.
-/

/-- Node status from types.ts: `'pending' | 'failed' | 'succeeded'`. -/
inductive NodeStatus where
  | pending
  | failed
  | succeeded
deriving DecidableEq, Repr

/-- Step status from types.ts: `'succeeded' | 'failed' | 'pending'`. -/
inductive StepStatus where
  | succeeded
  | failed
  | pending
deriving DecidableEq, Repr

/-- Problem severity from types.ts: `'error' | 'warning'`. -/
inductive Severity where
  | error
  | warning
deriving DecidableEq, Repr

/-- Runtime JSON values from types.ts (`RuntimeValue`). -/
inductive RuntimeValue where
  | str (s : String)
  | num (n : Int)
  | bool (b : Bool)
  | null
  | undef
  | arr (xs : List RuntimeValue)
  | obj (fields : List (String × RuntimeValue))

/-- `CfgNodeData` from types.ts. -/
structure CfgNodeData where
  blockId : String
  blockName : String
  codeSnippet : String
  status : NodeStatus
  file : Option String := none
  lineStart : Option Int := none
  lineEnd : Option Int := none
  executionCount : Option Nat := none
deriving DecidableEq, Repr

/-- A React Flow position `{x, y}` (only ever set to concrete numbers). -/
structure Position where
  x : Int
  y : Int
deriving DecidableEq, Repr

/-- A React Flow node `Node<CfgNodeData>` as the client constructs them. -/
structure RFNode where
  id : String
  type : String
  position : Position
  data : CfgNodeData
deriving DecidableEq, Repr

/-- A React Flow edge as the client constructs them. -/
structure RFEdge where
  id : String
  source : String
  target : String
  type : Option String := none
  animated : Option Bool := none
  label : Option String := none
deriving DecidableEq, Repr

/-- `RuntimeStep` from types.ts. -/
structure RuntimeStep where
  id : String
  blockId : String
  blockName : String
  codeSnippet : String
  before : List (String × RuntimeValue)
  after : List (String × RuntimeValue)
  status : StepStatus
  error : Option String := none

/-- `Problem` from types.ts. -/
structure Problem where
  id : String
  blockId : String
  stepId : String
  description : String
  severity : Severity
deriving DecidableEq, Repr

/-- `ApiNode` from api.ts. -/
structure ApiNode where
  id : String
  code_chunk : String
  explanation : Option String := none
  relationships : Option String := none
  filename : Option String := none
  line_range : Option String := none
deriving DecidableEq, Repr

/-- `ApiEdge` from api.ts. -/
structure ApiEdge where
  id : String
  from_node : String
  to_node : String
  relationship_type : Option String := none
deriving DecidableEq, Repr

/-- `ApiControlFlowResponse` from api.ts. -/
structure ApiControlFlowResponse where
  nodes : List ApiNode
  edges : List ApiEdge
  task_description : Option String := none
deriving DecidableEq, Repr

/-- `ControlFlowResponse`: the React-Flow-shaped result of the transform. -/
structure ControlFlowResponse where
  nodes : List RFNode
  edges : List RFEdge
  task_description : Option String := none
deriving DecidableEq, Repr

/-- Digit list to a number; `none` when there is no digit (parseInt NaN). -/
def natOfDigits (ds : List Char) : Option Nat :=
  match ds with
  | [] => none
  | _ => some (ds.foldl (fun a c => a * 10 + (c.toNat - 48)) 0)

/-- JavaScript `parseInt(s, 10)`: leading whitespace, optional sign,
maximal ASCII digit run; `none` models `NaN`. -/
def jsParseInt (s : String) : Option Int :=
  match s.data.dropWhile Char.isWhitespace with
  | '-' :: rest => (natOfDigits (rest.takeWhile Char.isDigit)).map (fun n => -(n : Int))
  | '+' :: rest => (natOfDigits (rest.takeWhile Char.isDigit)).map (fun n => (n : Int))
  | cs => (natOfDigits (cs.takeWhile Char.isDigit)).map (fun n => (n : Int))

/-- JavaScript `s.split('-')` on the character list: the separator is
dropped, empty fragments are kept, and the empty string splits to
`[""]`. -/
def splitCharsOnDash : List Char → List (List Char)
  | [] => [[]]
  | c :: cs =>
    let r := splitCharsOnDash cs
    if c = '-' then [] :: r
    else
      match r with
      | [] => [[c]]
      | g :: gs => (c :: g) :: gs

/-- JavaScript `s.split('-')`. -/
def splitOnDash (s : String) : List String :=
  (splitCharsOnDash s.data).map String.mk

/-- The `line_range` parsing block of `transformApiResponseToReactFlow`
(api.ts): inside `if (apiNode.line_range)` (string truthiness), split on
`'-'`; when exactly two parts, `parseInt` each and drop `NaN` to
`undefined`. -/
def parseLineRange (lr : Option String) : Option Int × Option Int :=
  match lr with
  | none => (none, none)
  | some s =>
    if s = "" then (none, none)
    else
      match splitOnDash s with
      | [a, b] => (jsParseInt a, jsParseInt b)
      | _ => (none, none)

/-- The per-node body of `transformApiResponseToReactFlow` (api.ts). -/
def transformApiNode (apiNode : ApiNode) : RFNode :=
  let lr := parseLineRange apiNode.line_range
  { id := apiNode.id
    type := "cfgNode"
    position := { x := 0, y := 0 }
    data :=
      { blockId := apiNode.id
        blockName := apiNode.id
        codeSnippet := apiNode.code_chunk
        status := NodeStatus.pending
        file := apiNode.filename
        lineStart := lr.1
        lineEnd := lr.2
        executionCount := none } }

/-- The per-edge body of `transformApiResponseToReactFlow` (api.ts). -/
def transformApiEdge (apiEdge : ApiEdge) : RFEdge :=
  { id := apiEdge.id
    source := apiEdge.from_node
    target := apiEdge.to_node
    type := some "smoothstep"
    animated := some false
    label := apiEdge.relationship_type }

/-- `transformApiResponseToReactFlow` from api.ts. -/
def transformApiResponseToReactFlow
    (apiResponse : ApiControlFlowResponse) : ControlFlowResponse :=
  { nodes := apiResponse.nodes.map transformApiNode
    edges := apiResponse.edges.map transformApiEdge
    task_description := apiResponse.task_description }

/-- JavaScript `a || d` on an optional string (`""` is falsy). -/
def jsOrString (a : Option String) (d : String) : String :=
  match a with
  | some s => if s = "" then d else s
  | none => d

/-- JavaScript `a || d` on an optional number (`0` is falsy). -/
def jsOrInt (a : Option Int) (d : Int) : Int :=
  match a with
  | some n => if n = 0 then d else n
  | none => d

/-- JavaScript string truthiness of an optional string field. -/
def truthyStr (a : Option String) : Bool :=
  match a with
  | some s => s ≠ ""
  | none => false

/-- The element type produced by `convertNodesToBlocks` (api.ts). -/
structure BlockDescriptor where
  block_id : String
  file_path : String
  start_line : Int
  end_line : Int
deriving DecidableEq, Repr

/-- `convertNodesToBlocks` from api.ts: keep nodes whose `data.file` is
truthy and whose `lineStart`/`lineEnd` are defined, then map each to a
block descriptor via `file || ''` and `lineStart || 0` / `lineEnd || 0`. -/
def convertNodesToBlocks (nodes : List RFNode) : List BlockDescriptor :=
  (nodes.filter (fun node =>
      truthyStr node.data.file &&
      node.data.lineStart.isSome &&
      node.data.lineEnd.isSome)).map
    (fun node =>
      { block_id := node.id
        file_path := jsOrString node.data.file ""
        start_line := jsOrInt node.data.lineStart 0
        end_line := jsOrInt node.data.lineEnd 0 })

/-- The element type produced by `extractSourcesFromNodes` (api.ts). -/
structure SourceEntry where
  file_path : String
  code : String
deriving DecidableEq, Repr

/-- Append a node to the group of file `f`, creating the group at the end
when it is new: the `fileMap.get/set/push` bookkeeping of
`extractSourcesFromNodes`, with a JavaScript `Map` rendered as an
insertion-ordered association list. -/
def addToGroups (gs : List (String × List RFNode)) (f : String) (n : RFNode) :
    List (String × List RFNode) :=
  match gs with
  | [] => [(f, [n])]
  | (g, ns) :: rest =>
    if g = f then (g, ns ++ [n]) :: rest else (g, ns) :: addToGroups rest f n

/-- One `nodes.forEach` step of the grouping pass of
`extractSourcesFromNodes`: nodes with a truthy `data.file` join their
file's group, others are skipped. -/
def gfStep (gs : List (String × List RFNode)) (node : RFNode) :
    List (String × List RFNode) :=
  match node.data.file with
  | some f => if f = "" then gs else addToGroups gs f node
  | none => gs

/-- The grouping pass of `extractSourcesFromNodes`. -/
def groupByFile (nodes : List RFNode) : List (String × List RFNode) :=
  nodes.foldl gfStep []

/-- Association-list lookup on the file groups (empty when absent). -/
def groupAt (gs : List (String × List RFNode)) (f : String) :
    List RFNode :=
  match gs with
  | [] => []
  | (k, ns) :: rest => if k = f then ns else groupAt rest f

/-- Stable insertion of a node into a list sorted by ascending
`lineStart || 0`: the inserted node (earlier in input order than every
node already present) passes nodes with a strictly smaller key and lands
before equal-key nodes, keeping input order on ties. -/
def insertByLineStart (n : RFNode) : List RFNode → List RFNode
  | [] => [n]
  | m :: ms =>
    if jsOrInt m.data.lineStart 0 < jsOrInt n.data.lineStart 0 then
      m :: insertByLineStart n ms
    else
      n :: m :: ms

/-- The `[...fileNodes].sort((a, b) => (a.data.lineStart || 0) -
(b.data.lineStart || 0))` call of `extractSourcesFromNodes`: a stable
ascending sort by `lineStart || 0` (JavaScript sort is stable). -/
def sortByLineStart : List RFNode → List RFNode
  | [] => []
  | n :: ns => insertByLineStart n (sortByLineStart ns)

/-- JavaScript `s.trim()`: strip leading and trailing whitespace. -/
def jsTrim (s : String) : String :=
  String.mk
    (((s.data.dropWhile Char.isWhitespace).reverse.dropWhile
        Char.isWhitespace).reverse)

/-- The snippet selection of `extractSourcesFromNodes` for one file group:
sort the group, keep snippets passing `code && code.trim().length > 0`. -/
def groupSnippets (ns : List RFNode) : List String :=
  ((sortByLineStart ns).map (fun n => n.data.codeSnippet)).filter
    (fun code => code ≠ "" && (jsTrim code).length > 0)

/-- The per-file body of `extractSourcesFromNodes`: emit a source entry
with the snippets joined by blank lines when any snippet remains. -/
def buildSources : List (String × List RFNode) → List SourceEntry
  | [] => []
  | (f, ns) :: rest =>
    if (groupSnippets ns).isEmpty then buildSources rest
    else
      { file_path := f, code := "\n\n".intercalate (groupSnippets ns) } ::
        buildSources rest

/-- `extractSourcesFromNodes` from api.ts. -/
def extractSourcesFromNodes (nodes : List RFNode) : List SourceEntry :=
  buildSources (groupByFile nodes)

/-- The `{...node.data, ...update.data}` spread of `mergeNodesWithAnalysis`
(the App component): required fields come from the update, optional fields
from the update when present there, else from the current node. -/
def spreadData (c u : CfgNodeData) : CfgNodeData :=
  { blockId := u.blockId
    blockName := u.blockName
    codeSnippet := u.codeSnippet
    status := u.status
    file := u.file <|> c.file
    lineStart := u.lineStart <|> c.lineStart
    lineEnd := u.lineEnd <|> c.lineEnd
    executionCount := u.executionCount <|> c.executionCount }

/-- `new Map(updates.map((node) => [node.id, node])).get(i)`: the last
update with the given id, since later `Map` entries overwrite earlier
ones. -/
def updateLookup (updates : List RFNode) (i : String) : Option RFNode :=
  updates.foldl (fun acc n => if n.id = i then some n else acc) none

/-- The per-node body of the `current.map` in `mergeNodesWithAnalysis`:
return the node unchanged when no update matches its id, else spread the
update's data over its data. -/
def mergeOneNode (us : List RFNode) (node : RFNode) : RFNode :=
  match updateLookup us node.id with
  | none => node
  | some u => { node with data := spreadData node.data u.data }

/-- The trailing `updates.forEach` of `mergeNodesWithAnalysis`: push every
update whose id is not already present, recording each pushed id. -/
def appendMissing (merged : List RFNode) (existing : List String) :
    List RFNode → List RFNode
  | [] => merged
  | n :: rest =>
    if n.id ∈ existing then appendMissing merged existing rest
    else appendMissing (merged ++ [n]) (n.id :: existing) rest

/-- The list of nodes `appendMissing` pushes, on its own: every update
whose id is not in `existing`, first occurrence per id. -/
def appendedList (existing : List String) : List RFNode → List RFNode
  | [] => []
  | n :: rest =>
    if n.id ∈ existing then appendedList existing rest
    else n :: appendedList (n.id :: existing) rest

/-- `mergeNodesWithAnalysis` from the App component: keep `current`'s
order, spreading matching updates over each node's data, then append
update-only nodes. -/
def mergeNodesWithAnalysis (current : List RFNode)
    (updates : Option (List RFNode)) : List RFNode :=
  match updates with
  | none => current
  | some us =>
    if us.length = 0 then current
    else
      appendMissing (current.map (mergeOneNode us))
        (current.map (fun n => n.id)) us

/-- The step-selection logic of `handleNodeClick` (App.tsx and the App
component with analysis support): filter the steps of the clicked node;
activate the first failed one, else the last one, else clear the
selection. -/
def selectStepForNode (steps : List RuntimeStep) (nodeId : String) :
    Option String :=
  if (steps.filter (fun s => s.blockId = nodeId)).isEmpty then none
  else
    match (steps.filter (fun s => s.blockId = nodeId)).find?
        (fun s => s.status = StepStatus.failed) with
    | some failedStep => some failedStep.id
    | none =>
      ((steps.filter (fun s => s.blockId = nodeId)).getLast?).map
        (fun s => s.id)

/-- `mockProblems` from mockData.ts. -/
def mockProblems : List Problem :=
  [ { id := "prob-1", blockId := "block-aggregate", stepId := "step-21"
      description := "count increments by 2, should increment by 1"
      severity := Severity.error }
  , { id := "prob-2", blockId := "block-return", stepId := "step-24"
      description := "Average calculation incorrect: count is 4 but should be 3 (bug in aggregate)"
      severity := Severity.warning } ]

/-- `initialNodes` from mockData.ts. -/
def initialNodes : List RFNode :=
  [ { id := "block-entry", type := "cfgNode", position := { x := 400, y := 0 }
      data := { blockId := "block-entry", blockName := "Entry"
                codeSnippet := "scores = [85, 92, -5, 78, 95]; total = 0; count = 0; threshold = 80"
                status := NodeStatus.succeeded, file := some "score_processor.py"
                lineStart := some 5, lineEnd := some 5, executionCount := some 1 } }
  , { id := "block-loop", type := "cfgNode", position := { x := 400, y := 120 }
      data := { blockId := "block-loop", blockName := "Loop"
                codeSnippet := "for score in scores:"
                status := NodeStatus.succeeded, file := some "score_processor.py"
                lineStart := some 7, lineEnd := some 7, executionCount := some 5 } }
  , { id := "block-validate", type := "cfgNode", position := { x := 400, y := 240 }
      data := { blockId := "block-validate", blockName := "Validate"
                codeSnippet := "if score < 0 or score > 100:"
                status := NodeStatus.succeeded, file := some "score_processor.py"
                lineStart := some 8, lineEnd := some 8, executionCount := some 5 } }
  , { id := "block-skip-invalid", type := "cfgNode", position := { x := 200, y := 360 }
      data := { blockId := "block-skip-invalid", blockName := "Skip Invalid"
                codeSnippet := "continue"
                status := NodeStatus.succeeded, file := some "score_processor.py"
                lineStart := some 9, lineEnd := some 9, executionCount := some 1 } }
  , { id := "block-filter", type := "cfgNode", position := { x := 600, y := 360 }
      data := { blockId := "block-filter", blockName := "Filter"
                codeSnippet := "if score >= threshold:"
                status := NodeStatus.succeeded, file := some "score_processor.py"
                lineStart := some 11, lineEnd := some 11, executionCount := some 4 } }
  , { id := "block-aggregate", type := "cfgNode", position := { x := 600, y := 480 }
      data := { blockId := "block-aggregate", blockName := "Aggregate"
                codeSnippet := "total += score; count += 2"
                status := NodeStatus.failed, file := some "score_processor.py"
                lineStart := some 12, lineEnd := some 13, executionCount := some 3 } }
  , { id := "block-exit-check", type := "cfgNode", position := { x := 600, y := 600 }
      data := { blockId := "block-exit-check", blockName := "Exit Check"
                codeSnippet := "if count >= 3:"
                status := NodeStatus.succeeded, file := some "score_processor.py"
                lineStart := some 14, lineEnd := some 14, executionCount := some 3 } }
  , { id := "block-early-exit", type := "cfgNode", position := { x := 800, y := 720 }
      data := { blockId := "block-early-exit", blockName := "Early Exit"
                codeSnippet := "break"
                status := NodeStatus.succeeded, file := some "score_processor.py"
                lineStart := some 15, lineEnd := some 15, executionCount := some 1 } }
  , { id := "block-return", type := "cfgNode", position := { x := 400, y := 840 }
      data := { blockId := "block-return", blockName := "Return"
                codeSnippet := "return total / count if count > 0 else 0"
                status := NodeStatus.succeeded, file := some "score_processor.py"
                lineStart := some 18, lineEnd := some 18, executionCount := some 1 } } ]

/-- `initialEdges` from mockData.ts. -/
def initialEdges : List RFEdge :=
  [ { id := "e-entry-loop", source := "block-entry", target := "block-loop" }
  , { id := "e-loop-validate", source := "block-loop", target := "block-validate" }
  , { id := "e-validate-skip", source := "block-validate", target := "block-skip-invalid" }
  , { id := "e-skip-loop", source := "block-skip-invalid", target := "block-loop" }
  , { id := "e-validate-filter", source := "block-validate", target := "block-filter" }
  , { id := "e-filter-loop", source := "block-filter", target := "block-loop" }
  , { id := "e-filter-aggregate", source := "block-filter", target := "block-aggregate" }
  , { id := "e-aggregate-exit-check", source := "block-aggregate", target := "block-exit-check" }
  , { id := "e-exit-check-loop", source := "block-exit-check", target := "block-loop" }
  , { id := "e-exit-check-early", source := "block-exit-check", target := "block-early-exit" }
  , { id := "e-early-return", source := "block-early-exit", target := "block-return" }
  , { id := "e-loop-return", source := "block-loop", target := "block-return" } ]

/-- Modelled from the spec: a TraceEvent as FailureLocator consumes it —
the repository ships no FailureLocator implementation (only the rendering
client), so this follows the data-model words "(block id, dynamic
occurrence index within the invocation, variable-binding snapshot at block
exit, status)", reduced to the fields the comparison walk reads. -/
structure SpecTraceEvent where
  blockId : String
  snapshot : List (String × Int)
deriving DecidableEq, Repr

/-- Modelled from the spec: the differential-comparison walk of
FailureLocator — "walk the failing trace in execution order … the first
point where the two trajectories diverge on any tracked variable is the
reported FailureNode".  Returns the trace-step index of the reported
FailureNode, `none` when the trajectories never diverge. -/
def firstDivergence : List SpecTraceEvent → List SpecTraceEvent → Option Nat
  | f :: fs, p :: ps =>
    if f = p then (firstDivergence fs ps).map (· + 1) else some 0
  | _, _ => none

/-- Modelled from the spec: whether the failing and the passing trace
disagree at step `i` — both traces have an event there and the events
differ on the block or on some tracked variable. -/
def disagreesAt (failing passing : List SpecTraceEvent) (i : Nat) : Bool :=
  match failing.get? i, passing.get? i with
  | some f, some p => f ≠ p
  | _, _ => false

/-- Deduplication worker: keep each block id's first occurrence, skipping
ids already seen. -/
def dedupFirstAux (seen : List String) : List String → List String
  | [] => []
  | b :: bs =>
    if b ∈ seen then dedupFirstAux seen bs
    else b :: dedupFirstAux (b :: seen) bs

/-- Remove duplicates keeping the first occurrence of each block id. -/
def dedupFirst (l : List String) : List String :=
  dedupFirstAux [] l

/-- Modelled from the spec: one breadth layer of SliceExtractor's
"breadth-first backward traversal over control-flow predecessors": extend
the slice with every predecessor (edge source whose target is already in
the slice) not yet included, keeping earlier layers first. -/
def expandSlice (edges : List (String × String)) (slice : List String) :
    List String :=
  slice ++
    dedupFirst ((edges.filter (fun e => e.2 ∈ slice && e.1 ∉ slice)).map
      (fun e => e.1))

/-- Iterate slice expansion a fixed number of layers. -/
def expandSliceIter (edges : List (String × String)) (slice : List String) :
    Nat → List String
  | 0 => slice
  | n + 1 => expandSliceIter edges (expandSlice edges slice) n

/-- Modelled from the spec: SliceExtractor — the repository ships no
implementation, so this follows "breadth-first backward traversal over
control-flow predecessors starting at FailureNodes, terminating per branch
either at the entry block or when the K budget is exhausted": start from
the FailureNode blocks, expand backward layer by layer (at most K layers
reach every predecessor within budget), and truncate to the ceiling K. -/
def extractFailureSlice (edges : List (String × String))
    (failureBlocks : List String) (K : Nat) : List String :=
  (expandSliceIter edges (dedupFirst failureBlocks) K).take K

/-- A small concrete API response used to exercise the transform. -/
def sampleApiResponse : ApiControlFlowResponse :=
  { nodes :=
      [ { id := "n1", code_chunk := "x = 1", filename := some "a.py"
          line_range := some "15-24" }
      , { id := "n2", code_chunk := "y = 2", line_range := some "foo" } ]
    edges :=
      [ { id := "e1", from_node := "n1", to_node := "n2"
          relationship_type := some "next" }
      , { id := "e2", from_node := "n2", to_node := "n1" } ]
    task_description := some "demo" }

/-- A small concrete node used in concrete checks. -/
def mkSampleNode (i f : String) (ls : Option Int) (snippet : String) : RFNode :=
  { id := i, type := "cfgNode", position := { x := 0, y := 0 }
    data := { blockId := i, blockName := i, codeSnippet := snippet
              status := NodeStatus.pending, file := some f
              lineStart := ls, lineEnd := ls } }

/-- Concrete current nodes for exercising the merge. -/
def sampleCurrentNodes : List RFNode :=
  [ mkSampleNode "b1" "a.py" (some 1) "x = 1"
  , mkSampleNode "b2" "a.py" (some 3) "y = 2" ]

/-- Concrete analysis updates for exercising the merge. -/
def sampleUpdateNodes : List RFNode :=
  [ { id := "b2", type := "cfgNode", position := { x := 0, y := 0 }
      data := { blockId := "b2", blockName := "b2", codeSnippet := "y = 2"
                status := NodeStatus.failed, executionCount := some 4 } }
  , mkSampleNode "b3" "a.py" (some 9) "z = 3" ]

/-- Concrete runtime steps for exercising the step selection. -/
def sampleSteps : List RuntimeStep :=
  [ { id := "s1", blockId := "b1", blockName := "b1", codeSnippet := "x = 1"
      before := [], after := [], status := StepStatus.succeeded }
  , { id := "s2", blockId := "b2", blockName := "b2", codeSnippet := "y = 2"
      before := [], after := [], status := StepStatus.failed
      error := some "bad" }
  , { id := "s3", blockId := "b2", blockName := "b2", codeSnippet := "y = 2"
      before := [], after := [], status := StepStatus.failed
      error := some "bad" } ]

/-- A concrete failing trace for exercising the failure locator model. -/
def sampleFailingTrace : List SpecTraceEvent :=
  [ { blockId := "b1", snapshot := [("y", -3)] }
  , { blockId := "b2", snapshot := [("y", 6)] }
  , { blockId := "b3", snapshot := [("y", 6)] } ]

/-- A concrete passing trace for exercising the failure locator model. -/
def samplePassingTrace : List SpecTraceEvent :=
  [ { blockId := "b1", snapshot := [("y", -3)] }
  , { blockId := "b2", snapshot := [("y", 3)] }
  , { blockId := "b3", snapshot := [("y", 3)] } ]

/-- Concrete CFG edges (source, target) for exercising the slice model. -/
def sampleCfgEdges : List (String × String) :=
  [ ("b1", "b2"), ("b2", "b3"), ("b3", "b4"), ("b1", "b4") ]

/-- The first node of `sampleApiResponse`. -/
def sampleApiNode1 : ApiNode :=
  { id := "n1", code_chunk := "x = 1", filename := some "a.py"
    line_range := some "15-24" }

/-- The first edge of `sampleApiResponse`. -/
def sampleApiEdge1 : ApiEdge :=
  { id := "e1", from_node := "n1", to_node := "n2"
    relationship_type := some "next" }

/-- C1: `transformApiResponseToReactFlow` emits exactly one client node per
API node, every emitted node's `data.status` is `pending`, and the
transformed node list is empty exactly when the API node list is empty. -/
theorem transform_keeps_every_node_pending (r : ApiControlFlowResponse) :
    (transformApiResponseToReactFlow r).nodes.length = r.nodes.length ∧
    (∀ n ∈ (transformApiResponseToReactFlow r).nodes,
      n.data.status = NodeStatus.pending) ∧
    ((transformApiResponseToReactFlow r).nodes = [] ↔ r.nodes = []) := by
  refine ⟨List.length_map _ _, ?_, ?_⟩
  · intro n hn
    simp only [transformApiResponseToReactFlow, List.mem_map] at hn
    obtain ⟨a, -, rfl⟩ := hn
    rfl
  · simp [transformApiResponseToReactFlow]

/-- Witness for C1 at a concrete API response. -/
theorem transform_keeps_every_node_pending_witness :
    (transformApiNode sampleApiNode1 ∈
      (transformApiResponseToReactFlow sampleApiResponse).nodes) ∧
    (transformApiNode sampleApiNode1).data.status = NodeStatus.pending :=
  ⟨by decide,
    (transform_keeps_every_node_pending sampleApiResponse).2.1
      (transformApiNode sampleApiNode1) (by decide)⟩

/-- C5: line-range parsing — when `line_range` splits on `'-'` into exactly
two integer-parsable parts `a` and `b`, the node data carries
`lineStart = a` and `lineEnd = b`; when `line_range` is absent or does not
split into exactly two parts, both bounds are undefined; when it splits
into two parts, each bound is the integer parse of its part (undefined
where the parse fails). -/
theorem transform_parses_line_range (r : ApiControlFlowResponse) (i : Nat)
    (n : ApiNode) (h : r.nodes.get? i = some n) :
    ∃ m, (transformApiResponseToReactFlow r).nodes.get? i = some m ∧
      (∀ s a b va vb, n.line_range = some s → splitOnDash s = [a, b] →
        jsParseInt a = some va → jsParseInt b = some vb →
        m.data.lineStart = some va ∧ m.data.lineEnd = some vb) ∧
      ((n.line_range = none ∨
          ∀ s, n.line_range = some s → (splitOnDash s).length ≠ 2) →
        m.data.lineStart = none ∧ m.data.lineEnd = none) ∧
      (∀ s a b, n.line_range = some s → splitOnDash s = [a, b] →
        m.data.lineStart = jsParseInt a ∧ m.data.lineEnd = jsParseInt b) := by
  have hsplit_ne : ∀ (a b : String), splitOnDash "" ≠ [a, b] := by
    intro a b hab
    simp [splitOnDash, splitCharsOnDash] at hab
  have hget : (transformApiResponseToReactFlow r).nodes.get? i =
      some (transformApiNode n) := by
    show (r.nodes.map transformApiNode).get? i = _
    rw [List.get?_map, h]; rfl
  have hrange : ∀ s a b, n.line_range = some s → splitOnDash s = [a, b] →
      (transformApiNode n).data.lineStart = jsParseInt a ∧
      (transformApiNode n).data.lineEnd = jsParseInt b := by
    intro s a b hs hab
    have hne : s ≠ "" := by
      intro he
      exact hsplit_ne a b (he ▸ hab)
    have : parseLineRange n.line_range = (jsParseInt a, jsParseInt b) := by
      rw [hs]
      show (if s = "" then (none, none)
        else match splitOnDash s with
        | [a, b] => (jsParseInt a, jsParseInt b)
        | _ => (none, none)) = _
      rw [if_neg hne, hab]
    exact ⟨by simp [transformApiNode, this], by simp [transformApiNode, this]⟩
  refine ⟨transformApiNode n, hget, ?_, ?_, hrange⟩
  · intro s a b va vb hs hab ha hb
    obtain ⟨h1, h2⟩ := hrange s a b hs hab
    exact ⟨by rw [h1, ha], by rw [h2, hb]⟩
  · intro hcase
    have : parseLineRange n.line_range = (none, none) := by
      rcases hcase with hnone | hlen
      · rw [hnone]; rfl
      · cases hs : n.line_range with
        | none => rfl
        | some s =>
          have hl := hlen s hs
          show (if s = "" then (none, none)
            else match splitOnDash s with
            | [a, b] => (jsParseInt a, jsParseInt b)
            | _ => (none, none)) = _
          by_cases he : s = ""
          · rw [if_pos he]
          · rw [if_neg he]
            rcases hsp : splitOnDash s with - | ⟨a, - | ⟨b, - | ⟨c, l⟩⟩⟩
            · rfl
            · rfl
            · exact absurd (by rw [hsp]; rfl) hl
            · rfl
    exact ⟨by simp [transformApiNode, this], by simp [transformApiNode, this]⟩

/-- Witness for C5 at a concrete API response. -/
theorem transform_parses_line_range_witness :
    sampleApiResponse.nodes.get? 0 = some sampleApiNode1 ∧
    ((transformApiResponseToReactFlow sampleApiResponse).nodes.get? 0).map
      (fun m => (m.data.lineStart, m.data.lineEnd)) =
      some (some 15, some 24) := by
  refine ⟨rfl, ?_⟩
  obtain ⟨m, hm, hints, -, -⟩ :=
    transform_parses_line_range sampleApiResponse 0 sampleApiNode1 rfl
  obtain ⟨h1, h2⟩ := hints "15-24" "15" "24" 15 24 rfl (by decide)
    (by decide) (by decide)
  rw [hm]
  simp [h1, h2]

/-- C6: the transformed edge list has exactly one edge per API edge,
preserving `id`, with `source` from `from_node`, `target` from `to_node`,
and `label` equal to the optional `relationship_type`. -/
theorem transform_preserves_edge_wire_shape (r : ApiControlFlowResponse) :
    (transformApiResponseToReactFlow r).edges.length = r.edges.length ∧
    ∀ i e, r.edges.get? i = some e →
      ∃ f, (transformApiResponseToReactFlow r).edges.get? i = some f ∧
        f.id = e.id ∧ f.source = e.from_node ∧ f.target = e.to_node ∧
        f.label = e.relationship_type := by
  refine ⟨List.length_map _ _, ?_⟩
  intro i e he
  refine ⟨transformApiEdge e, ?_, rfl, rfl, rfl, rfl⟩
  show (r.edges.map transformApiEdge).get? i = _
  rw [List.get?_map, he]; rfl

/-- Witness for C6 at a concrete API response. -/
theorem transform_preserves_edge_wire_shape_witness :
    sampleApiResponse.edges.get? 0 = some sampleApiEdge1 ∧
    ((transformApiResponseToReactFlow sampleApiResponse).edges.get? 0).map
      (fun f => (f.id, f.source, f.target, f.label)) =
      some ("e1", "n1", "n2", some "next") := by
  refine ⟨rfl, ?_⟩
  obtain ⟨f, hf, h1, h2, h3, h4⟩ :=
    (transform_preserves_edge_wire_shape sampleApiResponse).2 0 sampleApiEdge1
      rfl
  rw [hf]
  simp [h1, h2, h3, h4, sampleApiEdge1]

/-- C7: the payload transforms are deterministic — equal inputs give equal
outputs for `transformApiResponseToReactFlow` and
`extractSourcesFromNodes` (both are pure functions of their argument in
this embedding, matching the I/O-free source bodies, which only build new
arrays and sort a copy). -/
theorem payload_transforms_are_deterministic
    (r₁ r₂ : ApiControlFlowResponse) (ns₁ ns₂ : List RFNode)
    (hr : r₁ = r₂) (hn : ns₁ = ns₂) :
    transformApiResponseToReactFlow r₁ = transformApiResponseToReactFlow r₂ ∧
    extractSourcesFromNodes ns₁ = extractSourcesFromNodes ns₂ := by
  subst hr
  subst hn
  exact ⟨rfl, rfl⟩

/-- Witness for C7 at concrete inputs. -/
theorem payload_transforms_are_deterministic_witness :
    transformApiResponseToReactFlow sampleApiResponse =
      transformApiResponseToReactFlow sampleApiResponse ∧
    extractSourcesFromNodes sampleCurrentNodes =
      extractSourcesFromNodes sampleCurrentNodes :=
  payload_transforms_are_deterministic sampleApiResponse sampleApiResponse
    sampleCurrentNodes sampleCurrentNodes rfl rfl
/-- The merged node keeps the current node's id. -/
theorem mergeOneNode_id (us : List RFNode) (node : RFNode) :
    (mergeOneNode us node).id = node.id := by
  unfold mergeOneNode
  cases updateLookup us node.id <;> rfl

/-- `appendMissing` appends precisely `appendedList` to the merged list. -/
theorem appendMissing_eq (us : List RFNode) :
    ∀ (merged : List RFNode) (existing : List String),
      appendMissing merged existing us = merged ++ appendedList existing us := by
  induction us with
  | nil =>
    intro merged existing
    simp [appendMissing, appendedList]
  | cons n rest ih =>
    intro merged existing
    simp only [appendMissing, appendedList]
    by_cases h : n.id ∈ existing
    · rw [if_pos h, if_pos h, ih]
    · rw [if_neg h, if_neg h, ih]
      simp

/-- Unfolding of the merge on a nonempty update list. -/
theorem merge_some_eq (current us : List RFNode) (h : us ≠ []) :
    mergeNodesWithAnalysis current (some us) =
      current.map (mergeOneNode us) ++
        appendedList (current.map (fun n => n.id)) us := by
  show (if us.length = 0 then current
    else appendMissing (current.map (mergeOneNode us))
      (current.map (fun n => n.id)) us) = _
  rw [if_neg (by simpa using h)]
  exact appendMissing_eq us _ _

/-- The merge keeps every id of the current node list. -/
theorem mem_ids_merge (current : List RFNode) (updates : Option (List RFNode))
    (s : String) (hs : s ∈ current.map (fun n => n.id)) :
    s ∈ (mergeNodesWithAnalysis current updates).map (fun n => n.id) := by
  cases updates with
  | none => exact hs
  | some us =>
    rcases eq_or_ne us [] with rfl | hne
    · simpa [mergeNodesWithAnalysis] using hs
    · rw [merge_some_eq current us hne, List.map_append]
      apply List.mem_append_left
      rw [List.map_map]
      have : current.map ((fun n => n.id) ∘ mergeOneNode us) =
          current.map (fun n => n.id) :=
        List.map_congr_left (fun a _ => mergeOneNode_id us a)
      rw [this]
      exact hs

/-- C2: referential completeness of the client payloads — every block id
referenced by a mock edge or mock problem exists in the mock node list,
and `mergeNodesWithAnalysis` preserves referential completeness: ids
referenced against `current` still exist in the merged list. -/
theorem client_payload_referential_completeness :
    (∀ e ∈ initialEdges, e.source ∈ initialNodes.map (fun n => n.id) ∧
        e.target ∈ initialNodes.map (fun n => n.id)) ∧
    (∀ p ∈ mockProblems, p.blockId ∈ initialNodes.map (fun n => n.id)) ∧
    (∀ (current : List RFNode) (updates : Option (List RFNode))
        (edges : List RFEdge) (problems : List Problem),
      (∀ e ∈ edges, e.source ∈ current.map (fun n => n.id) ∧
          e.target ∈ current.map (fun n => n.id)) →
      (∀ p ∈ problems, p.blockId ∈ current.map (fun n => n.id)) →
      (∀ e ∈ edges,
          e.source ∈ (mergeNodesWithAnalysis current updates).map
            (fun n => n.id) ∧
          e.target ∈ (mergeNodesWithAnalysis current updates).map
            (fun n => n.id)) ∧
      (∀ p ∈ problems,
          p.blockId ∈ (mergeNodesWithAnalysis current updates).map
            (fun n => n.id))) := by
  refine ⟨by decide, by decide, ?_⟩
  intro current updates edges problems hedges hproblems
  refine ⟨?_, ?_⟩
  · intro e he
    exact ⟨mem_ids_merge current updates e.source (hedges e he).1,
      mem_ids_merge current updates e.target (hedges e he).2⟩
  · intro p hp
    exact mem_ids_merge current updates p.blockId (hproblems p hp)

/-- Witness for C2 at concrete payloads. -/
theorem client_payload_referential_completeness_witness :
    (({ id := "e-entry-loop", source := "block-entry",
        target := "block-loop" } : RFEdge) ∈ initialEdges) ∧
    ("block-entry" ∈ initialNodes.map (fun n => n.id) ∧
      "block-loop" ∈ initialNodes.map (fun n => n.id)) ∧
    ("b1" ∈ (mergeNodesWithAnalysis sampleCurrentNodes
        (some sampleUpdateNodes)).map (fun n => n.id)) :=
  ⟨by decide,
    client_payload_referential_completeness.1
      { id := "e-entry-loop", source := "block-entry", target := "block-loop" }
      (by decide),
    ((client_payload_referential_completeness.2.2 sampleCurrentNodes
        (some sampleUpdateNodes)
        [{ id := "e", source := "b1", target := "b1" }] []
        (by decide) (by decide)).1
      { id := "e", source := "b1", target := "b1" } (by decide)).1⟩
/-- The map-style fold behind `updateLookup` keeps its accumulator when no
entry matches. -/
theorem foldl_lookup_no_match (i : String) :
    ∀ (us : List RFNode) (acc : Option RFNode), (∀ m ∈ us, m.id ≠ i) →
      us.foldl (fun acc n => if n.id = i then some n else acc) acc = acc := by
  intro us
  induction us with
  | nil => intro acc _; rfl
  | cons n rest ih =>
    intro acc h
    have hn : n.id ≠ i := h n (List.mem_cons_self n rest)
    show rest.foldl _ (if n.id = i then some n else acc) = acc
    rw [if_neg hn]
    exact ih acc (fun m hm => h m (List.mem_cons_of_mem n hm))

/-- `updateLookup` misses when no update carries the id. -/
theorem updateLookup_eq_none (us : List RFNode) (i : String)
    (h : ∀ m ∈ us, m.id ≠ i) : updateLookup us i = none :=
  foldl_lookup_no_match i us none h

/-- With pairwise-distinct update ids, `updateLookup` finds the member
update carrying the id. -/
theorem updateLookup_eq_some (us : List RFNode) (u : RFNode)
    (hu : (us.map (fun n => n.id)).Nodup) (hmem : u ∈ us) :
    updateLookup us u.id = some u := by
  induction us with
  | nil => exact absurd hmem (List.not_mem_nil u)
  | cons n rest ih =>
    rw [List.map_cons, List.nodup_cons] at hu
    show rest.foldl _ (if n.id = u.id then some n else none) = some u
    rcases List.mem_cons.mp hmem with heq | hrest
    · rw [heq, if_pos rfl]
      exact foldl_lookup_no_match n.id rest (some n)
        (fun m hm h2 => hu.1 (h2 ▸ List.mem_map_of_mem (fun x => x.id) hm))
    · have hne : n.id ≠ u.id := fun heq =>
        hu.1 (heq ▸ List.mem_map_of_mem (fun x => x.id) hrest)
      rw [if_neg hne]
      exact ih hu.2 hrest

/-- A node untouched by every update is returned unchanged. -/
theorem mergeOneNode_eq_self (us : List RFNode) (node : RFNode)
    (h : ∀ m ∈ us, m.id ≠ node.id) : mergeOneNode us node = node := by
  unfold mergeOneNode
  rw [updateLookup_eq_none us node.id h]

/-- With pairwise-distinct update ids, the pushed updates are exactly those
whose id avoids the existing ids. -/
theorem appendedList_eq_filter :
    ∀ (us : List RFNode) (ex : List String),
      (us.map (fun n => n.id)).Nodup →
      appendedList ex us = us.filter (fun n => n.id ∉ ex) := by
  intro us
  induction us with
  | nil => intro ex _; rfl
  | cons n rest ih =>
    intro ex hnd
    rw [List.map_cons, List.nodup_cons] at hnd
    simp only [appendedList, List.filter_cons]
    by_cases h : n.id ∈ ex
    · rw [if_pos h, if_neg (by simpa using h), ih ex hnd.2]
    · rw [if_neg h, if_pos (by simpa using h), ih (n.id :: ex) hnd.2]
      congr 1
      apply List.filter_congr
      intro m hm
      have hne : m.id ≠ n.id := fun heq =>
        hnd.1 (heq ▸ List.mem_map_of_mem (fun x => x.id) hm)
      simp [List.mem_cons, hne]

/-- The ids of the merge: current ids in order, then update-only ids in
order. -/
theorem merge_ids (current us : List RFNode)
    (hu : (us.map (fun n => n.id)).Nodup) :
    (mergeNodesWithAnalysis current (some us)).map (fun n => n.id) =
      current.map (fun n => n.id) ++
        (us.filter (fun n => n.id ∉ current.map (fun m => m.id))).map
          (fun n => n.id) := by
  rcases eq_or_ne us [] with rfl | hne
  · simp [mergeNodesWithAnalysis]
  · rw [merge_some_eq current us hne, List.map_append,
      appendedList_eq_filter us _ hu]
    congr 1
    rw [List.map_map]
    exact List.map_congr_left (fun a _ => mergeOneNode_id us a)

/-- C8: `mergeNodesWithAnalysis` — empty or absent updates return `current`
unchanged; with pairwise-distinct ids on both sides the merged ids are the
current ids followed by the update-only ids (current order kept, new nodes
appended) and every id occurs exactly once; a current node with no
matching update is returned unchanged in place; a current node with a
matching update keeps its non-data fields while the update's data entries
override its data key-by-key. -/
theorem mergeNodesWithAnalysis_spec (current us : List RFNode)
    (hc : (current.map (fun n => n.id)).Nodup)
    (hu : (us.map (fun n => n.id)).Nodup) :
    mergeNodesWithAnalysis current none = current ∧
    mergeNodesWithAnalysis current (some []) = current ∧
    ((mergeNodesWithAnalysis current (some us)).map (fun n => n.id) =
      current.map (fun n => n.id) ++
        (us.filter (fun n => n.id ∉ current.map (fun m => m.id))).map
          (fun n => n.id)) ∧
    (∀ s, s ∈ current.map (fun n => n.id) ∨ s ∈ us.map (fun n => n.id) →
      ((mergeNodesWithAnalysis current (some us)).map
          (fun n => n.id)).count s = 1) ∧
    (∀ i n, current.get? i = some n → n.id ∉ us.map (fun m => m.id) →
      (mergeNodesWithAnalysis current (some us)).get? i = some n) ∧
    (∀ i n u, current.get? i = some n → u ∈ us → u.id = n.id →
      updateLookup us n.id = some u ∧
      (mergeNodesWithAnalysis current (some us)).get? i = some
        { id := n.id, type := n.type, position := n.position
          data := { blockId := u.data.blockId
                    blockName := u.data.blockName
                    codeSnippet := u.data.codeSnippet
                    status := u.data.status
                    file := u.data.file <|> n.data.file
                    lineStart := u.data.lineStart <|> n.data.lineStart
                    lineEnd := u.data.lineEnd <|> n.data.lineEnd
                    executionCount :=
                      u.data.executionCount <|> n.data.executionCount } }) := by
  refine ⟨rfl, rfl, merge_ids current us hu, ?_, ?_, ?_⟩
  · -- every referenced id occurs exactly once
    intro s hs
    rw [merge_ids current us hu, List.count_append]
    by_cases hsA : s ∈ current.map (fun n => n.id)
    · rw [List.count_eq_one_of_mem hc hsA]
      have hnotB : s ∉
          (us.filter (fun n => n.id ∉ current.map (fun m => m.id))).map
            (fun n => n.id) := by
        intro hsB
        simp only [List.mem_map, List.mem_filter] at hsB
        obtain ⟨m, ⟨-, hpred⟩, rfl⟩ := hsB
        have hpred2 : m.id ∉ current.map (fun x => x.id) := by
          simpa using hpred
        exact hpred2 hsA
      rw [List.count_eq_zero.mpr hnotB]
    · have hsU : s ∈ us.map (fun n => n.id) := hs.resolve_left hsA
      have hBnodup :
          ((us.filter (fun n => n.id ∉ current.map (fun m => m.id))).map
            (fun n => n.id)).Nodup :=
        hu.sublist ((List.filter_sublist us).map (fun n => n.id))
      obtain ⟨u, humem, rfl⟩ := List.mem_map.mp hsU
      have hsB : u.id ∈
          (us.filter (fun n => n.id ∉ current.map (fun m => m.id))).map
            (fun n => n.id) :=
        List.mem_map_of_mem (fun n => n.id)
          (List.mem_filter.mpr ⟨humem, by simpa using hsA⟩)
      rw [List.count_eq_zero.mpr hsA, List.count_eq_one_of_mem hBnodup hsB]
  · -- untouched current nodes are unchanged, in place
    intro i n h hnot
    have hids : ∀ m ∈ us, m.id ≠ n.id := fun m hm heq =>
      hnot (heq ▸ List.mem_map_of_mem (fun x => x.id) hm)
    rcases eq_or_ne us [] with rfl | hne
    · simpa [mergeNodesWithAnalysis] using h
    · have hlen : i < current.length := (List.get?_eq_some.mp h).fst
      rw [merge_some_eq current us hne,
        List.get?_append (by simpa using hlen), List.get?_map, h]
      simp [mergeOneNode_eq_self us n hids]
  · -- updated current nodes take the spread data, in place
    intro i n u h humem hid
    have hlook : updateLookup us n.id = some u :=
      hid ▸ updateLookup_eq_some us u hu humem
    have hne : us ≠ [] := fun he => by simp [he] at humem
    have hlen : i < current.length := (List.get?_eq_some.mp h).fst
    refine ⟨hlook, ?_⟩
    rw [merge_some_eq current us hne,
      List.get?_append (by simpa using hlen), List.get?_map, h]
    show some (mergeOneNode us n) = _
    unfold mergeOneNode
    rw [hlook]
    rfl

/-- Witness for C8 at concrete node lists. -/
theorem mergeNodesWithAnalysis_spec_witness :
    ((sampleCurrentNodes.map (fun n => n.id)).Nodup ∧
      (sampleUpdateNodes.map (fun n => n.id)).Nodup) ∧
    ((mergeNodesWithAnalysis sampleCurrentNodes
        (some sampleUpdateNodes)).map (fun n => n.id)).count "b2" = 1 :=
  ⟨⟨by decide, by decide⟩,
    (mergeNodesWithAnalysis_spec sampleCurrentNodes sampleUpdateNodes
        (by decide) (by decide)).2.2.2.1 "b2" (Or.inl (by decide))⟩
/-- `a || 0` on a present number is the number itself. -/
theorem jsOrInt_some_zero (v : Int) : jsOrInt (some v) 0 = v := by
  by_cases h : v = 0
  · simp [jsOrInt, h]
  · simp [jsOrInt, h]

/-- `a || d` on a present truthy string is the string itself. -/
theorem jsOrString_some_of_ne (s d : String) (h : s ≠ "") :
    jsOrString (some s) d = s := by
  simp [jsOrString, h]

/-- C9: `convertNodesToBlocks` returns exactly the nodes with a truthy
file and both line bounds defined, in input order, mapped to block
descriptors carrying the node's id, file and bounds; its length never
exceeds the input length. -/
theorem convertNodesToBlocks_spec (nodes : List RFNode) :
    (convertNodesToBlocks nodes).length ≤ nodes.length ∧
    convertNodesToBlocks nodes =
      (nodes.filter (fun n => truthyStr n.data.file &&
          n.data.lineStart.isSome && n.data.lineEnd.isSome)).map
        (fun n =>
          { block_id := n.id
            file_path := n.data.file.getD ""
            start_line := n.data.lineStart.getD 0
            end_line := n.data.lineEnd.getD 0 }) := by
  constructor
  · unfold convertNodesToBlocks
    rw [List.length_map]
    exact List.length_filter_le _ _
  · unfold convertNodesToBlocks
    apply List.map_congr_left
    intro n hn
    rw [List.mem_filter] at hn
    obtain ⟨-, hp⟩ := hn
    simp only [Bool.and_eq_true] at hp
    obtain ⟨⟨hfile, hls⟩, hle⟩ := hp
    cases hf : n.data.file with
    | none => rw [hf] at hfile; simp [truthyStr] at hfile
    | some s =>
      rw [hf] at hfile
      have hs : s ≠ "" := by simpa [truthyStr] using hfile
      cases hlsv : n.data.lineStart with
      | none => rw [hlsv] at hls; simp at hls
      | some v1 =>
        cases hlev : n.data.lineEnd with
        | none => rw [hlev] at hle; simp at hle
        | some v2 =>
          simp [hf, hlsv, hlev, jsOrString_some_of_ne s "" hs,
            jsOrInt_some_zero]
/-- The locator's walk reports an index no later than any disagreement. -/
theorem firstDivergence_le (failing : List SpecTraceEvent) :
    ∀ (passing : List SpecTraceEvent) (j : Nat),
      disagreesAt failing passing j = true →
      ∃ i, firstDivergence failing passing = some i ∧ i ≤ j := by
  induction failing with
  | nil => intro passing j h; simp [disagreesAt] at h
  | cons f fs ih =>
    intro passing j h
    cases passing with
    | nil => simp [disagreesAt] at h
    | cons p ps =>
      cases j with
      | zero =>
        have hfp : f ≠ p := by simpa [disagreesAt] using h
        exact ⟨0, by simp [firstDivergence, hfp], Nat.le_refl 0⟩
      | succ j2 =>
        have h2 : disagreesAt fs ps j2 = true := by
          simpa [disagreesAt] using h
        by_cases hfp : f = p
        · obtain ⟨i, hi, hle⟩ := ih ps j2 h2
          exact ⟨i + 1, by simp [firstDivergence, hfp, hi],
            Nat.succ_le_succ hle⟩
        · exact ⟨0, by simp [firstDivergence, hfp], Nat.zero_le _⟩

/-- The first failed step of a node (positionally characterized) is what
`find?` returns on the node's filtered step list. -/
theorem find_failed_of_first (nodeId : String) :
    ∀ (steps : List RuntimeStep) (i : Nat) (s : RuntimeStep),
      steps.get? i = some s → s.blockId = nodeId →
      s.status = StepStatus.failed →
      (∀ j t, j < i → steps.get? j = some t → t.blockId = nodeId →
        t.status ≠ StepStatus.failed) →
      (steps.filter (fun x => x.blockId = nodeId)).find?
        (fun x => x.status = StepStatus.failed) = some s := by
  intro steps
  induction steps with
  | nil => intro i s hget; simp at hget
  | cons hd tl ih =>
    intro i s hget hnode hfail hmin
    cases i with
    | zero =>
      have hs : hd = s := by
        have := hget
        simp only [List.get?_cons_zero, Option.some.injEq] at this
        exact this
      subst hs
      rw [List.filter_cons, if_pos (by simpa using hnode)]
      simp [List.find?_cons, hfail]
    | succ i2 =>
      have hget2 : tl.get? i2 = some s := hget
      have hmin2 : ∀ j t, j < i2 → tl.get? j = some t →
          t.blockId = nodeId → t.status ≠ StepStatus.failed := by
        intro j t hj hget3 hbid
        exact hmin (j + 1) t (Nat.succ_lt_succ hj) hget3 hbid
      rw [List.filter_cons]
      by_cases hq : hd.blockId = nodeId
      · rw [if_pos (by simpa using hq)]
        have hnf : hd.status ≠ StepStatus.failed :=
          hmin 0 hd (Nat.succ_pos i2) rfl hq
        have hdec : decide (hd.status = StepStatus.failed) = false := by
          simp [hnf]
        rw [List.find?_cons, hdec]
        exact ih i2 s hget2 hnode hfail hmin2
      · rw [if_neg (by simpa using hq)]
        exact ih i2 s hget2 hnode hfail hmin2

/-- Clicking a node with at least one failed step activates the first
failed step of that node. -/
theorem selectStep_first_failed (steps : List RuntimeStep) (nodeId : String)
    (i : Nat) (s : RuntimeStep) (hget : steps.get? i = some s)
    (hnode : s.blockId = nodeId) (hfail : s.status = StepStatus.failed)
    (hmin : ∀ j t, j < i → steps.get? j = some t → t.blockId = nodeId →
      t.status ≠ StepStatus.failed) :
    selectStepForNode steps nodeId = some s.id := by
  have hfind := find_failed_of_first nodeId steps i s hget hnode hfail hmin
  have hne : (steps.filter (fun x => x.blockId = nodeId)).isEmpty = false := by
    cases hns : steps.filter (fun x => x.blockId = nodeId) with
    | nil => rw [hns] at hfind; simp at hfind
    | cons a l => rfl
  unfold selectStepForNode
  rw [hne, hfind]
  simp

/-- C3: the reported failure point is the earliest disagreement — the
modelled FailureLocator reports an index ≤ every disagreement index on the
compared traces (hence ≤ the final oracle disagreement), and the
`handleNodeClick` step selection activates the first failed step, in
execution order, of any node that has a failed step. -/
theorem earliest_divergence_reported :
    (∀ (failing passing : List SpecTraceEvent) (j : Nat),
      disagreesAt failing passing j = true →
      ∃ i, firstDivergence failing passing = some i ∧ i ≤ j) ∧
    (∀ (steps : List RuntimeStep) (nodeId : String) (i : Nat)
        (s : RuntimeStep),
      steps.get? i = some s → s.blockId = nodeId →
      s.status = StepStatus.failed →
      (∀ j t, j < i → steps.get? j = some t → t.blockId = nodeId →
        t.status ≠ StepStatus.failed) →
      selectStepForNode steps nodeId = some s.id) :=
  ⟨fun failing => firstDivergence_le failing, selectStep_first_failed⟩

/-- Witness for C3 at a concrete trace pair and step list. -/
theorem earliest_divergence_reported_witness :
    disagreesAt sampleFailingTrace samplePassingTrace 1 = true ∧
    (firstDivergence sampleFailingTrace samplePassingTrace).isSome = true ∧
    selectStepForNode sampleSteps "b2" = some "s2" := by
  refine ⟨by decide, ?_, ?_⟩
  · obtain ⟨i, hi, -⟩ :=
      earliest_divergence_reported.1 sampleFailingTrace samplePassingTrace 1
        (by decide)
    rw [hi]
    rfl
  · exact earliest_divergence_reported.2 sampleSteps "b2" 1
      { id := "s2", blockId := "b2", blockName := "b2"
        codeSnippet := "y = 2", before := [], after := []
        status := StepStatus.failed, error := some "bad" }
      rfl rfl rfl
      (by
        intro j t hj hget hbid
        have hj0 : j = 0 := Nat.lt_one_iff.mp hj
        subst hj0
        have h0 : sampleSteps.get? 0 = some
            { id := "s1", blockId := "b1", blockName := "b1"
              codeSnippet := "x = 1", before := [], after := []
              status := StepStatus.succeeded, error := none } := rfl
        rw [h0] at hget
        have ht := Option.some.inj hget
        rw [← ht] at hbid
        exact absurd hbid (by decide))
/-- The deduplication worker keeps every member not yet seen. -/
theorem mem_dedupFirstAux (l : List String) :
    ∀ (seen : List String) (b : String), b ∈ l → b ∉ seen →
      b ∈ dedupFirstAux seen l := by
  induction l with
  | nil => intro seen b hb _; cases hb
  | cons x xs ih =>
    intro seen b hb hns
    show b ∈ (if x ∈ seen then dedupFirstAux seen xs
      else x :: dedupFirstAux (x :: seen) xs)
    by_cases hx : x ∈ seen
    · rw [if_pos hx]
      rcases List.mem_cons.mp hb with rfl | hxs
      · exact absurd hx hns
      · exact ih seen b hxs hns
    · rw [if_neg hx]
      by_cases hbx : b = x
      · rw [hbx]; exact List.mem_cons_self _ _
      · rcases List.mem_cons.mp hb with rfl | hxs
        · exact absurd rfl hbx
        · refine List.mem_cons_of_mem _ (ih (x :: seen) b hxs ?_)
          simp [List.mem_cons, hbx, hns]

/-- Deduplication keeps every member. -/
theorem mem_dedupFirst (l : List String) (b : String) (hb : b ∈ l) :
    b ∈ dedupFirst l :=
  mem_dedupFirstAux l [] b hb (List.not_mem_nil b)

/-- Slice expansion only appends: the starting slice stays a prefix. -/
theorem expandSliceIter_prefix (edges : List (String × String)) :
    ∀ (n : Nat) (slice : List String),
      ∃ t, expandSliceIter edges slice n = slice ++ t := by
  intro n
  induction n with
  | zero => intro slice; exact ⟨[], (List.append_nil slice).symm⟩
  | succ n ih =>
    intro slice
    obtain ⟨t, ht⟩ := ih (expandSlice edges slice)
    refine ⟨dedupFirst ((edges.filter
        (fun e => e.2 ∈ slice && e.1 ∉ slice)).map (fun e => e.1)) ++ t, ?_⟩
    show expandSliceIter edges (expandSlice edges slice) n = _
    rw [ht]
    show (slice ++ _) ++ t = _
    rw [List.append_assoc]

/-- C4: the modelled FailureSlice holds at most K blocks, and — whenever
the distinct FailureNode blocks fit in the ceiling, as the spec's joint
guarantees presuppose — it contains the block of every FailureNode. -/
theorem failure_slice_bounded_and_complete (edges : List (String × String))
    (failureBlocks : List String) (K : Nat)
    (hK : (dedupFirst failureBlocks).length ≤ K) :
    (extractFailureSlice edges failureBlocks K).length ≤ K ∧
    ∀ b ∈ failureBlocks, b ∈ extractFailureSlice edges failureBlocks K := by
  constructor
  · exact List.length_take_le K _
  · intro b hb
    obtain ⟨t, ht⟩ :=
      expandSliceIter_prefix edges K (dedupFirst failureBlocks)
    unfold extractFailureSlice
    rw [ht, List.take_append_eq_append_take, List.take_of_length_le hK]
    exact List.mem_append_left _ (mem_dedupFirst failureBlocks b hb)

/-- Witness for C4 at a concrete CFG, failure set and ceiling. -/
theorem failure_slice_bounded_and_complete_witness :
    (dedupFirst ["b3", "b3"]).length ≤ 3 ∧
    (extractFailureSlice sampleCfgEdges ["b3", "b3"] 3).length ≤ 3 ∧
    "b3" ∈ extractFailureSlice sampleCfgEdges ["b3", "b3"] 3 :=
  ⟨by decide,
    (failure_slice_bounded_and_complete sampleCfgEdges ["b3", "b3"] 3
      (by decide)).1,
    (failure_slice_bounded_and_complete sampleCfgEdges ["b3", "b3"] 3
      (by decide)).2 "b3" (by decide)⟩
/-- Membership through the stable insertion. -/
theorem mem_insertByLineStart (n a : RFNode) (l : List RFNode) :
    a ∈ insertByLineStart n l ↔ a = n ∨ a ∈ l := by
  induction l with
  | nil => simp [insertByLineStart]
  | cons m ms ih =>
    simp only [insertByLineStart]
    by_cases h : jsOrInt m.data.lineStart 0 < jsOrInt n.data.lineStart 0
    · rw [if_pos h]
      simp only [List.mem_cons, ih]
      tauto
    · rw [if_neg h]
      simp [List.mem_cons]

/-- Sorting keeps exactly the members. -/
theorem mem_sortByLineStart (a : RFNode) (l : List RFNode) :
    a ∈ sortByLineStart l ↔ a ∈ l := by
  induction l with
  | nil => exact Iff.rfl
  | cons n ns ih =>
    simp [sortByLineStart, mem_insertByLineStart, ih]

/-- A nonempty string has positive length. -/
theorem string_length_pos_of_ne (s : String) (h : s ≠ "") : 0 < s.length := by
  cases s with
  | mk data =>
    cases data with
    | nil => exact absurd rfl h
    | cons c cs => exact Nat.succ_pos cs.length

/-- The snippet filter of `extractSourcesFromNodes` tests exactly for
non-whitespace content. -/
theorem snippet_pred_eq (c : String) :
    ((c ≠ "" && (jsTrim c).length > 0) : Bool) = decide (jsTrim c ≠ "") := by
  by_cases h : jsTrim c = ""
  · simp [h]
  · have hc : c ≠ "" := by
      intro he
      rw [he] at h
      exact h rfl
    simp [h, hc, string_length_pos_of_ne _ h]

/-- The snippets of a group are its sorted snippets with non-whitespace
content. -/
theorem groupSnippets_eq (ns : List RFNode) :
    groupSnippets ns =
      ((sortByLineStart ns).map (fun n => n.data.codeSnippet)).filter
        (fun c => jsTrim c ≠ "") := by
  unfold groupSnippets
  exact List.filter_congr (fun c _ => snippet_pred_eq c)

/-- Keys after adding to a group: unchanged when the file already has a
group, extended at the end otherwise. -/
theorem addToGroups_keys (gs : List (String × List RFNode)) (f : String)
    (n : RFNode) :
    (addToGroups gs f n).map (fun g => g.1) =
      if f ∈ gs.map (fun g => g.1) then gs.map (fun g => g.1)
      else gs.map (fun g => g.1) ++ [f] := by
  induction gs with
  | nil => simp [addToGroups]
  | cons g rest ih =>
    obtain ⟨k, ns⟩ := g
    simp only [addToGroups, List.map_cons]
    by_cases h : k = f
    · rw [if_pos h, if_pos (List.mem_cons.mpr (Or.inl h.symm))]
      rfl
    · rw [if_neg h, List.map_cons, ih]
      by_cases hf : f ∈ rest.map (fun g => g.1)
      · rw [if_pos hf, if_pos (List.mem_cons.mpr (Or.inr hf))]
      · rw [if_neg hf,
          if_neg (fun hmem => (List.mem_cons.mp hmem).elim
            (fun heq => h heq.symm) hf)]
        rfl

/-- Lookup of the added file's group after adding to it. -/
theorem addToGroups_groupAt_same (gs : List (String × List RFNode))
    (f : String) (n : RFNode) :
    groupAt (addToGroups gs f n) f = groupAt gs f ++ [n] := by
  induction gs with
  | nil => simp [addToGroups, groupAt]
  | cons g rest ih =>
    obtain ⟨k, ns⟩ := g
    simp only [addToGroups]
    by_cases h : k = f
    · rw [if_pos h]
      simp [groupAt, h]
    · rw [if_neg h]
      simp [groupAt, h, ih]

/-- Lookup of any other file's group after adding to a group. -/
theorem addToGroups_groupAt_other (gs : List (String × List RFNode))
    (f : String) (n : RFNode) (f2 : String) (h : f2 ≠ f) :
    groupAt (addToGroups gs f n) f2 = groupAt gs f2 := by
  induction gs with
  | nil => simp [addToGroups, groupAt, Ne.symm h]
  | cons g rest ih =>
    obtain ⟨k, ns⟩ := g
    simp only [addToGroups]
    by_cases hk : k = f
    · rw [if_pos hk]
      have hk2 : k ≠ f2 := fun he => h (he ▸ hk)
      simp [groupAt, hk2]
    · rw [if_neg hk]
      simp only [groupAt]
      by_cases hk2 : k = f2
      · rw [if_pos hk2, if_pos hk2]
      · rw [if_neg hk2, if_neg hk2, ih]

/-- One grouping step extends exactly the stepped node's file group. -/
theorem gfStep_groupAt (gs : List (String × List RFNode)) (node : RFNode)
    (f : String) (hf : f ≠ "") :
    groupAt (gfStep gs node) f =
      groupAt gs f ++
        (if node.data.file = some f then [node] else []) := by
  cases hd : node.data.file with
  | none => simp [gfStep, hd]
  | some g =>
    by_cases hg : g = ""
    · have hgf : g ≠ f := fun he => hf (he ▸ hg)
      simp [gfStep, hd, hg, hgf, Ne.symm hf]
    · by_cases hgf : g = f
      · subst hgf
        simp [gfStep, hd, hg, addToGroups_groupAt_same]
      · rw [show gfStep gs node = addToGroups gs g node from by
          simp [gfStep, hd, hg]]
        rw [addToGroups_groupAt_other gs g node f
          (fun he => hgf he.symm)]
        simp [hgf]

/-- The grouping fold collects, per nonempty file name, exactly the nodes
of that file in input order. -/
theorem foldl_gfStep_groupAt (nodes : List RFNode) :
    ∀ (gs0 : List (String × List RFNode)) (f : String), f ≠ "" →
      groupAt (nodes.foldl gfStep gs0) f =
        groupAt gs0 f ++
          nodes.filter (fun n => n.data.file = some f) := by
  induction nodes with
  | nil => intro gs0 f _; simp
  | cons n ns ih =>
    intro gs0 f hf
    rw [List.foldl_cons, ih (gfStep gs0 n) f hf, gfStep_groupAt gs0 n f hf,
      List.filter_cons]
    by_cases h : n.data.file = some f
    · simp [h]
    · simp [h]

/-- `groupByFile` puts exactly the nodes of file `f` in `f`'s group. -/
theorem groupByFile_groupAt (nodes : List RFNode) (f : String)
    (hf : f ≠ "") :
    groupAt (groupByFile nodes) f =
      nodes.filter (fun n => n.data.file = some f) := by
  unfold groupByFile
  rw [foldl_gfStep_groupAt nodes [] f hf]
  rfl
/-- One grouping step keeps the file keys pairwise distinct. -/
theorem gfStep_keys_nodup (gs : List (String × List RFNode)) (node : RFNode)
    (h : (gs.map (fun g => g.1)).Nodup) :
    ((gfStep gs node).map (fun g => g.1)).Nodup := by
  cases hd : node.data.file with
  | none => simpa [gfStep, hd] using h
  | some g =>
    by_cases hg : g = ""
    · simpa [gfStep, hd, hg] using h
    · rw [show gfStep gs node = addToGroups gs g node from by
        simp [gfStep, hd, hg]]
      rw [addToGroups_keys]
      by_cases hf : g ∈ gs.map (fun g => g.1)
      · rw [if_pos hf]; exact h
      · rw [if_neg hf]
        simp [List.nodup_append, h, hf]

/-- The grouping fold keeps the file keys pairwise distinct. -/
theorem foldl_gfStep_keys_nodup (nodes : List RFNode) :
    ∀ (gs0 : List (String × List RFNode)),
      (gs0.map (fun g => g.1)).Nodup →
      ((nodes.foldl gfStep gs0).map (fun g => g.1)).Nodup := by
  induction nodes with
  | nil => intro gs0 h; exact h
  | cons n ns ih =>
    intro gs0 h
    exact ih (gfStep gs0 n) (gfStep_keys_nodup gs0 n h)

/-- The file keys of `groupByFile` are pairwise distinct. -/
theorem groupByFile_keys_nodup (nodes : List RFNode) :
    ((groupByFile nodes).map (fun g => g.1)).Nodup :=
  foldl_gfStep_keys_nodup nodes [] List.nodup_nil

/-- Adding to a group keeps every group nonempty. -/
theorem addToGroups_nonempty (gs : List (String × List RFNode)) (f : String)
    (n : RFNode) (h : ∀ pr ∈ gs, pr.2 ≠ []) :
    ∀ pr ∈ addToGroups gs f n, pr.2 ≠ [] := by
  induction gs with
  | nil =>
    intro pr hpr
    simp only [addToGroups, List.mem_singleton] at hpr
    subst hpr
    simp
  | cons g rest ih =>
    obtain ⟨k, ns⟩ := g
    intro pr hpr
    simp only [addToGroups] at hpr
    by_cases hk : k = f
    · rw [if_pos hk] at hpr
      rcases List.mem_cons.mp hpr with rfl | hrest
      · simp
      · exact h pr (List.mem_cons_of_mem _ hrest)
    · rw [if_neg hk] at hpr
      rcases List.mem_cons.mp hpr with rfl | hrest
      · exact h (k, ns) (List.mem_cons_self _ _)
      · exact ih (fun q hq => h q (List.mem_cons_of_mem _ hq)) pr hrest

/-- One grouping step keeps every group nonempty. -/
theorem gfStep_nonempty (gs : List (String × List RFNode)) (node : RFNode)
    (h : ∀ pr ∈ gs, pr.2 ≠ []) : ∀ pr ∈ gfStep gs node, pr.2 ≠ [] := by
  cases hd : node.data.file with
  | none => simpa [gfStep, hd] using h
  | some g =>
    by_cases hg : g = ""
    · simpa [gfStep, hd, hg] using h
    · rw [show gfStep gs node = addToGroups gs g node from by
        simp [gfStep, hd, hg]]
      exact addToGroups_nonempty gs g node h

/-- All the groups the grouping fold builds are nonempty. -/
theorem foldl_gfStep_nonempty (nodes : List RFNode) :
    ∀ (gs0 : List (String × List RFNode)), (∀ pr ∈ gs0, pr.2 ≠ []) →
      ∀ pr ∈ nodes.foldl gfStep gs0, pr.2 ≠ [] := by
  induction nodes with
  | nil => intro gs0 h; exact h
  | cons n ns ih =>
    intro gs0 h
    exact ih (gfStep gs0 n) (gfStep_nonempty gs0 n h)

/-- All the groups of `groupByFile` are nonempty. -/
theorem groupByFile_nonempty (nodes : List RFNode) :
    ∀ pr ∈ groupByFile nodes, pr.2 ≠ [] :=
  foldl_gfStep_nonempty nodes [] (fun pr hpr => absurd hpr (List.not_mem_nil pr))

/-- One grouping step introduces no empty file key. -/
theorem gfStep_keys_ne (gs : List (String × List RFNode)) (node : RFNode)
    (h : ∀ k ∈ gs.map (fun g => g.1), k ≠ "") :
    ∀ k ∈ (gfStep gs node).map (fun g => g.1), k ≠ "" := by
  cases hd : node.data.file with
  | none => simpa [gfStep, hd] using h
  | some g =>
    by_cases hg : g = ""
    · simpa [gfStep, hd, hg] using h
    · rw [show gfStep gs node = addToGroups gs g node from by
        simp [gfStep, hd, hg]]
      rw [addToGroups_keys]
      by_cases hf : g ∈ gs.map (fun g => g.1)
      · rw [if_pos hf]; exact h
      · rw [if_neg hf]
        intro k hk
        rcases List.mem_append.mp hk with hk1 | hk2
        · exact h k hk1
        · rw [List.mem_singleton.mp hk2]; exact hg

/-- `groupByFile` produces no empty file key. -/
theorem groupByFile_keys_ne (nodes : List RFNode) :
    ∀ k ∈ (groupByFile nodes).map (fun g => g.1), k ≠ "" := by
  have main : ∀ (ns : List RFNode) (gs0 : List (String × List RFNode)),
      (∀ k ∈ gs0.map (fun g => g.1), k ≠ "") →
      ∀ k ∈ (ns.foldl gfStep gs0).map (fun g => g.1), k ≠ "" := by
    intro ns
    induction ns with
    | nil => intro gs0 h; exact h
    | cons n ms ih =>
      intro gs0 h
      exact ih (gfStep gs0 n) (gfStep_keys_ne gs0 n h)
  exact main nodes [] (by simp)

/-- With distinct keys, lookup of a member pair's key gives its group. -/
theorem groupAt_of_mem (gs : List (String × List RFNode))
    (pr : String × List RFNode)
    (hnd : (gs.map (fun g => g.1)).Nodup) (hm : pr ∈ gs) :
    groupAt gs pr.1 = pr.2 := by
  induction gs with
  | nil => cases hm
  | cons g rest ih =>
    obtain ⟨k, ns⟩ := g
    rw [List.map_cons, List.nodup_cons] at hnd
    rcases List.mem_cons.mp hm with rfl | hrest
    · simp [groupAt]
    · have hk : k ≠ pr.1 := by
        intro he
        exact hnd.1 (he ▸ List.mem_map_of_mem (fun g => g.1) hrest)
      simp only [groupAt]
      rw [if_neg hk]
      exact ih hnd.2 hrest

/-- A nonempty lookup result comes from a member pair with that key. -/
theorem exists_entry_of_groupAt_ne (gs : List (String × List RFNode))
    (f : String) (h : groupAt gs f ≠ []) : ∃ pr ∈ gs, pr.1 = f := by
  induction gs with
  | nil => exact absurd rfl h
  | cons g rest ih =>
    obtain ⟨k, ns⟩ := g
    simp only [groupAt] at h
    by_cases hk : k = f
    · exact ⟨(k, ns), List.mem_cons_self _ _, hk⟩
    · rw [if_neg hk] at h
      obtain ⟨pr, hpr, he⟩ := ih h
      exact ⟨pr, List.mem_cons_of_mem _ hpr, he⟩
/-- The emitted file paths are a sublist of the group keys. -/
theorem buildSources_keys_sublist (gs : List (String × List RFNode)) :
    ((buildSources gs).map (fun e => e.file_path)).Sublist
      (gs.map (fun g => g.1)) := by
  induction gs with
  | nil => exact List.Sublist.refl []
  | cons g rest ih =>
    obtain ⟨f, ns⟩ := g
    simp only [buildSources]
    by_cases h : (groupSnippets ns).isEmpty = true
    · rw [if_pos h]
      exact List.Sublist.cons _ ih
    · rw [if_neg h, List.map_cons]
      exact List.Sublist.cons₂ _ ih

/-- Every emitted source entry comes from a member group with surviving
snippets, and carries their blank-line join. -/
theorem buildSources_mem_elim (gs : List (String × List RFNode))
    (e : SourceEntry) (he : e ∈ buildSources gs) :
    ∃ pr ∈ gs, pr.1 = e.file_path ∧ groupSnippets pr.2 ≠ [] ∧
      e.code = "\n\n".intercalate (groupSnippets pr.2) := by
  induction gs with
  | nil => cases he
  | cons g rest ih =>
    obtain ⟨f, ns⟩ := g
    simp only [buildSources] at he
    by_cases h : (groupSnippets ns).isEmpty = true
    · rw [if_pos h] at he
      obtain ⟨pr, hpr, hrest⟩ := ih he
      exact ⟨pr, List.mem_cons_of_mem _ hpr, hrest⟩
    · rw [if_neg h] at he
      rcases List.mem_cons.mp he with rfl | htail
      · refine ⟨(f, ns), List.mem_cons_self _ _, rfl, ?_, rfl⟩
        intro hnil
        rw [hnil] at h
        exact h rfl
      · obtain ⟨pr, hpr, hrest⟩ := ih htail
        exact ⟨pr, List.mem_cons_of_mem _ hpr, hrest⟩

/-- Every member group with surviving snippets emits a source entry. -/
theorem buildSources_mem_intro (gs : List (String × List RFNode))
    (pr : String × List RFNode) (hm : pr ∈ gs)
    (hs : groupSnippets pr.2 ≠ []) :
    ∃ e ∈ buildSources gs, e.file_path = pr.1 := by
  induction gs with
  | nil => cases hm
  | cons g rest ih =>
    obtain ⟨f, ns⟩ := g
    simp only [buildSources]
    rcases List.mem_cons.mp hm with rfl | hrest
    · have h : (groupSnippets ns).isEmpty = false := by
        cases hg : groupSnippets ns with
        | nil => exact absurd hg hs
        | cons a l => rfl
      rw [if_neg (by simp [h])]
      exact ⟨_, List.mem_cons_self _ _, rfl⟩
    · obtain ⟨e, heb, hef⟩ := ih hrest
      by_cases h : (groupSnippets ns).isEmpty = true
      · rw [if_pos h]
        exact ⟨e, heb, hef⟩
      · rw [if_neg h]
        exact ⟨e, List.mem_cons_of_mem _ heb, hef⟩
/-- C10: `extractSourcesFromNodes` emits at most one entry per distinct
file; a (nonempty) file name appears in the output exactly when some node
of that file has a snippet with non-whitespace content; that entry's code
is the blank-line join of the non-empty snippets of the file's nodes in
ascending `lineStart` order (undefined treated as 0, input order kept on
ties); nodes without a file contribute nothing. -/
theorem extractSourcesFromNodes_spec (nodes : List RFNode) (f : String)
    (hf : f ≠ "") :
    ((extractSourcesFromNodes nodes).map (fun e => e.file_path)).Nodup ∧
    ((∃ e ∈ extractSourcesFromNodes nodes, e.file_path = f) ↔
      ∃ n ∈ nodes, n.data.file = some f ∧ jsTrim n.data.codeSnippet ≠ "") ∧
    (∀ e ∈ extractSourcesFromNodes nodes, e.file_path = f →
      e.code = "\n\n".intercalate
        (((sortByLineStart (nodes.filter
              (fun n => n.data.file = some f))).map
            (fun n => n.data.codeSnippet)).filter
          (fun c => jsTrim c ≠ ""))) := by
  have hnd := groupByFile_keys_nodup nodes
  have key : ∀ pr ∈ groupByFile nodes, pr.1 = f →
      pr.2 = nodes.filter (fun x => x.data.file = some f) := by
    intro pr hpr hk
    have h1 := groupAt_of_mem _ pr hnd hpr
    rw [hk] at h1
    exact h1.symm.trans (groupByFile_groupAt nodes f hf)
  simp only [extractSourcesFromNodes]
  refine ⟨hnd.sublist (buildSources_keys_sublist (groupByFile nodes)),
    ?_, ?_⟩
  · constructor
    · rintro ⟨e, heb, hef⟩
      obtain ⟨pr, hpr, hk, hsn, -⟩ :=
        buildSources_mem_elim (groupByFile nodes) e heb
      rw [key pr hpr (hk.trans hef), groupSnippets_eq] at hsn
      obtain ⟨c, hc⟩ := List.exists_mem_of_ne_nil _ hsn
      rw [List.mem_filter] at hc
      obtain ⟨hcm, hcp⟩ := hc
      obtain ⟨m, hms, rfl⟩ := List.mem_map.mp hcm
      rw [mem_sortByLineStart, List.mem_filter] at hms
      exact ⟨m, hms.1, by simpa using hms.2, by simpa using hcp⟩
    · rintro ⟨n, hn, hfile, htrim⟩
      have hnf : n ∈ nodes.filter (fun x => x.data.file = some f) :=
        List.mem_filter.mpr ⟨hn, by simp [hfile]⟩
      have hne : groupAt (groupByFile nodes) f ≠ [] := by
        rw [groupByFile_groupAt nodes f hf]
        intro he
        rw [he] at hnf
        cases hnf
      obtain ⟨pr, hpr, hk⟩ :=
        exists_entry_of_groupAt_ne (groupByFile nodes) f hne
      have hsn : groupSnippets pr.2 ≠ [] := by
        rw [key pr hpr hk, groupSnippets_eq]
        intro he
        have hm1 : n ∈ sortByLineStart
            (nodes.filter (fun x => x.data.file = some f)) :=
          (mem_sortByLineStart n _).mpr hnf
        have hm2 : n.data.codeSnippet ∈
            (sortByLineStart (nodes.filter
              (fun x => x.data.file = some f))).map
              (fun x => x.data.codeSnippet) :=
          List.mem_map_of_mem _ hm1
        have hm3 : n.data.codeSnippet ∈
            ((sortByLineStart (nodes.filter
              (fun x => x.data.file = some f))).map
              (fun x => x.data.codeSnippet)).filter
              (fun c => jsTrim c ≠ "") :=
          List.mem_filter.mpr ⟨hm2, by simpa using htrim⟩
        rw [he] at hm3
        cases hm3
      obtain ⟨e, heb, hef⟩ :=
        buildSources_mem_intro (groupByFile nodes) pr hpr hsn
      exact ⟨e, heb, hef.trans hk⟩
  · intro e heb hef
    obtain ⟨pr, hpr, hk, -, hcode⟩ :=
      buildSources_mem_elim (groupByFile nodes) e heb
    rw [hcode, key pr hpr (hk.trans hef), groupSnippets_eq]

/-- Witness for C10 at a concrete node list. -/
theorem extractSourcesFromNodes_spec_witness :
    ("a.py" : String) ≠ "" ∧
    ((extractSourcesFromNodes sampleCurrentNodes).map
      (fun e => e.file_path)).Nodup :=
  ⟨by decide,
    (extractSourcesFromNodes_spec sampleCurrentNodes "a.py" (by decide)).1⟩
